import Mathlib

/-!
# Verification of BinReader's PHP-serialized-data core (src/main.go)

Shallow embedding of the three core components described in the spec:

* `extractTopLevelKeys` (OrderExtractor) — embeds `extractTopLevelKeys`
  from src/main.go lines 30–74, byte-for-byte faithful, including the
  64-bit `int` arithmetic of Go (`strconv.Atoi` range, wrap-around of
  `j+2+n`) and the runtime panics of out-of-range string slicing.
* `printMapToBufferF` (OrderedPrinter) — embeds `printMapToBuffer`
  from src/main.go lines 78–104; the Go call stack is modelled by an
  explicit depth budget (`fuel`), one unit per nesting level.
* `decodeValueF` (ValueDecoder) — the program delegates decoding to the
  external library `phpserialize.Unmarshal`, whose source is not part of
  this repository; it is modelled from the spec (§4.2).

Buffers are modelled as `List Char` (the inputs are byte strings; every
byte the algorithms inspect is ASCII).
-/

/-- Go string slicing `l[a:b]` for `0 ≤ a ≤ b ≤ l.length` (the only way it
is used after the source's bounds checks). -/
def goSlice (l : List Char) (a b : Nat) : List Char :=
  (l.drop a).take (b - a)

/-- Go string indexing `l[i]`; the source only indexes in bounds, so the
default is never observable. -/
def getC (l : List Char) (i : Nat) : Char :=
  l.getD i ' '

/-- Go `strings.Index(s, string(c))` for a one-character pattern. -/
def firstIdx : List Char → Char → Option Nat
  | [], _ => none
  | c :: rest, t => if c = t then some 0 else (firstIdx rest t).map (· + 1)

/-- Go `strings.LastIndex(s, string(c))` for a one-character pattern. -/
def lastIdx (s : List Char) (t : Char) : Option Nat :=
  (firstIdx s.reverse t).map (fun k => s.length - 1 - k)

/-- Numeric value of a (non-empty, all-digit) decimal digit run. -/
def digitsVal (l : List Char) : Nat :=
  l.foldl (fun acc c => acc * 10 + (c.toNat - 48)) 0

/-- Go `strconv.Atoi`: optional single sign, then one or more decimal
digits, value within the 64-bit `int` range; anything else is an error
(`none`). -/
def goAtoi (l : List Char) : Option Int :=
  let sign : Int := match l with
    | '-' :: _ => -1
    | _ => 1
  let mag : List Char := match l with
    | '-' :: r => r
    | '+' :: r => r
    | r => r
  if mag.isEmpty then none
  else if mag.all Char.isDigit then
    let v : Int := sign * (digitsVal mag : Int)
    if v < -(2 ^ 63) ∨ (2 ^ 63 - 1 : Int) < v then none else some v
  else none

/-- Two's-complement wrap-around of Go 64-bit `int` arithmetic. -/
def wrap64 (x : Int) : Int :=
  (x + 2 ^ 63) % 2 ^ 64 - 2 ^ 63

/-- Index (relative) of the first `':'` in `l`, or `l.length` if none. -/
def firstColonFrom : List Char → Nat
  | [] => 0
  | c :: rest => if c = ':' then 0 else firstColonFrom rest + 1

/-- The source's inner loop `j := i+2; for j < len(content) && content[j] != ':' { j++ }`:
first index `≥ j` holding `':'`, or past the end. -/
def findColon (content : List Char) (j : Nat) : Nat :=
  j + firstColonFrom (content.drop j)

/-- The four failure kinds of the OrderExtractor (spec §7), in the order
the source's error returns appear. -/
inductive ExtractError where
  | MalformedContainer  -- "invalid serialized string"
  | InvalidLength       -- "invalid string length: %v"
  | MalformedKey        -- "expected '\x22' after length"
  | TruncatedKey        -- "string length exceeds content"
deriving DecidableEq, Repr

/-- Outcome of running the extractor: a normal return, an error return, a
Go runtime panic (out-of-range string slicing), or an exhausted step budget
(`fuelOut` is unreachable for the budget `extractTopLevelKeys` supplies,
see `scanKeysF_no_fuelOut`). -/
inductive ExtractOutcome where
  | ok (keys : List (List Char))
  | err (e : ExtractError)
  | goPanic
  | fuelOut
deriving DecidableEq, Repr

/-- The scan loop of `extractTopLevelKeys` (src/main.go lines 39–72) over
the content between the braces.  `i` is the scan position, `acc` the keys
collected so far (reversed).  Each loop iteration moves `i` strictly
forward, so a budget of `content.length + 1 - i` steps always suffices.
The arithmetic `j+2+n` is 64-bit `int` arithmetic in Go, hence `wrap64`;
the Go expression `content[j+2 : j+2+n]` panics when its high bound is below its
low bound (negative declared length) — Go checks `j+2+n > len(content)`
first, so the panic fires exactly when `wrap64 (j+2+n) < j+2`. -/
def scanKeysF : Nat → List Char → Nat → List (List Char) → ExtractOutcome
  | 0, _, _, _ => .fuelOut
  | fuel + 1, content, i, acc =>
    if i < content.length then
      if getC content i = 's' ∧ i + 1 < content.length ∧ getC content (i + 1) = ':' then
        let j := findColon content (i + 2)
        if content.length ≤ j then .ok acc.reverse
        else
          match goAtoi (goSlice content (i + 2) j) with
          | none => .err .InvalidLength
          | some n =>
            if content.length ≤ j + 1 ∨ getC content (j + 1) ≠ '"' then .err .MalformedKey
            else
              let t : Int := wrap64 ((j : Int) + 2 + n)
              if (content.length : Int) < t then .err .TruncatedKey
              else if t < (j : Int) + 2 then .goPanic
              else scanKeysF fuel content (t.toNat + 2) (goSlice content (j + 2) t.toNat :: acc)
      else scanKeysF fuel content (i + 1) acc
    else .ok acc.reverse

/-- `extractTopLevelKeys` (src/main.go lines 30–74): locate the first `{`
and the last `}`, fail with `MalformedContainer` ("invalid serialized
string") unless both exist and the `}` strictly follows the `{`, then scan
the content strictly between them. -/
def extractTopLevelKeys (s : List Char) : ExtractOutcome :=
  match firstIdx s '\x7b', lastIdx s '\x7d' with
  | some st, some en =>
    if en ≤ st then .err .MalformedContainer
    else
      let content := goSlice s (st + 1) en
      scanKeysF (content.length + 1) content 0 []
  | _, _ => .err .MalformedContainer

/-- The content region the extractor scans: the bytes strictly between the
first `{` and the last `}` (empty when the container is malformed). -/
def contentOf (s : List Char) : List Char :=
  match firstIdx s '\x7b', lastIdx s '\x7d' with
  | some st, some en => if en ≤ st then [] else goSlice s (st + 1) en
  | _, _ => []

/-- Number of positions at which the two-byte marker `s:` occurs. -/
def countMarkers : List Char → Nat
  | [] => 0
  | c :: rest => (if c = 's' ∧ rest.head? = some ':' then 1 else 0) + countMarkers rest

/-- Keys of the decoded map.  `phpserialize.Unmarshal` produces
`map[interface{}]interface{}` whose keys are integers or strings; per the
spec (§9) the key type is the closed set {Integer, Text}. -/
inductive PKey where
  | kInt (n : Int)
  | kText (s : List Char)
deriving DecidableEq, Repr

/-- The decoded value tree (spec §3 `SerializedValue`).  `vFloat` keeps the
raw literal characters (float claims are out of scope, spec §1 non-goals);
`vMap` is an association list: one fixed iteration/insertion order standing
for the Go map's arbitrary order (spec §4.3 allows any fixed order). -/
inductive PValue where
  | vNull
  | vBool (b : Bool)
  | vInt (n : Int)
  | vFloat (lit : List Char)
  | vText (s : List Char)
  | vMap (entries : List (PKey × PValue))
deriving Repr

/-- Go map lookup `data[key]` on the association-list model. -/
def lookupKey : List (PKey × PValue) → PKey → Option PValue
  | [], _ => none
  | (k, v) :: rest, key => if k = key then some v else lookupKey rest key

/-- Go `fmt.Sprintf("%v", key)`: an `int64` prints in decimal, a string
prints as itself. -/
def formatKey : PKey → List Char
  | .kInt n => (toString n).data
  | .kText s => s

/-- The printer's key resolution (src/main.go lines 83–90): exact map
lookup first, then lookup of the key's string-formatted form. -/
def resolveValue (data : List (PKey × PValue)) (k : PKey) : Option PValue :=
  match lookupKey data k with
  | some v => some v
  | none => lookupKey data (.kText (formatKey k))

/-- Go `fmt.Sprintf("%v", v)` for the scalar values that can appear in the
decoded tree (`%v` of a `nil` interface is `<nil>`; of a float the model
keeps the decoded literal).  Never applied to maps. -/
def scalarText : PValue → List Char
  | .vNull => "<nil>".data
  | .vBool true => "true".data
  | .vBool false => "false".data
  | .vInt n => (toString n).data
  | .vFloat lit => lit
  | .vText s => s
  | .vMap _ => []

/-- `strings.Repeat("  ", indent)`: two spaces per nesting level. -/
def indentChars (indent : Nat) : List Char :=
  List.replicate (2 * indent) ' '

/-- One level of `printMapToBuffer` (src/main.go lines 78–104): iterate the
given keys; a key resolving to nothing is skipped; a scalar prints
`indent ++ "- key: value\n"`; a nested map prints `indent ++ "- key:\n"`,
then (via `pn`, the recursive call one level deeper) its own entries in the
map's iteration order, then the loop continues.  `none` propagates a
failure of the nested call (exhausted stack budget). -/
def printEntries
    (pn : List (PKey × PValue) → Nat → List PKey → Option (List Char))
    (data : List (PKey × PValue)) (indent : Nat) : List PKey → Option (List Char)
  | [] => some []
  | k :: rest =>
    match resolveValue data k with
    | none => printEntries pn data indent rest
    | some (.vMap m) =>
      (match pn m (indent + 1) (m.map Prod.fst) with
       | none => none
       | some inner =>
         match printEntries pn data indent rest with
         | none => none
         | some restOut =>
           some (indentChars indent ++ ('-' :: ' ' :: formatKey k) ++
             (':' :: '\n' :: inner) ++ restOut))
    | some v =>
      (match printEntries pn data indent rest with
       | none => none
       | some restOut =>
         some (indentChars indent ++ ('-' :: ' ' :: formatKey k) ++
           (':' :: ' ' :: scalarText v) ++ ('\n' :: restOut)))

/-- `printMapToBuffer` with an explicit recursion-depth budget standing for
the Go call stack: one unit of fuel per nesting level.  A budget of
`sizeOf data` always suffices (`printMapToBufferF_isSome`). -/
def printMapToBufferF : Nat → List (PKey × PValue) → Nat → List PKey → Option (List Char)
  | 0, _, _, _ => none
  | fuel + 1, data, indent, keys =>
    printEntries (fun m i ks => printMapToBufferF fuel m i ks) data indent keys

mutual

/-- Size of a value tree (used as a sufficient stack budget for the
printer). -/
def sizePV : PValue → Nat
  | .vNull => 1
  | .vBool _ => 1
  | .vInt _ => 1
  | .vFloat _ => 1
  | .vText _ => 1
  | .vMap m => 1 + sizeEntries m

/-- Size of a map's entry list. -/
def sizeEntries : List (PKey × PValue) → Nat
  | [] => 1
  | (_, v) :: rest => 1 + sizePV v + sizeEntries rest

end

/-- `printMapToBuffer` run with the always-sufficient stack budget; the
`getD` default is unreachable (`printMapToBufferF_isSome`). -/
def printRun (data : List (PKey × PValue)) (keys : List PKey) : List Char :=
  (printMapToBufferF (sizeEntries data) data 0 keys).getD []

/-- Leading decimal-digit run of `l` and the value it denotes; `none` when
`l` does not start with a digit. -/
def takeNatLit (l : List Char) : Option (Nat × List Char) :=
  let ds := l.takeWhile Char.isDigit
  if ds.isEmpty then none else some (digitsVal ds, l.dropWhile Char.isDigit)

/-- Optionally signed decimal integer literal at the head of `l`. -/
def takeIntLit (l : List Char) : Option (Int × List Char) :=
  match l with
  | '-' :: r =>
    (match takeNatLit r with
     | some (n, rest) => some (-(n : Int), rest)
     | none => none)
  | '+' :: r =>
    (match takeNatLit r with
     | some (n, rest) => some ((n : Int), rest)
     | none => none)
  | _ =>
    (match takeNatLit l with
     | some (n, rest) => some ((n : Int), rest)
     | none => none)

/-- Characters allowed in a float literal (optionally signed, optionally
exponential decimal, spec §4.2). -/
def isFloatChar (c : Char) : Bool :=
  c.isDigit ∨ c = '.' ∨ c = '-' ∨ c = '+' ∨ c = 'e' ∨ c = 'E'

/-- A decoded key must be an integer or a text production (spec §4.2:
entry pairs are "(key value-or-text, value any SerializedValue)"; §9: key
type is the closed set {Integer, Text}). -/
def toKey : PValue → Option PKey
  | .vInt n => some (.kInt n)
  | .vText s => some (.kText s)
  | _ => none

/-- Modelled from the spec: the entry-pair loop of the Associative
production of the ValueDecoder (spec §4.2) — the decoder itself is the
external library `phpserialize.Unmarshal`, not part of this repository's
source.  Parses exactly `n` (key, value) pairs with the supplied value
decoder `dec`; any grammar violation aborts the whole decode (`none`). -/
def decodePairsWith (dec : List Char → Option (PValue × List Char)) :
    Nat → List Char → Option (List (PKey × PValue) × List Char)
  | 0, chars => some ([], chars)
  | n + 1, chars =>
    match dec chars with
    | none => none
    | some (kv, r1) =>
      match toKey kv with
      | none => none
      | some key =>
        match dec r1 with
        | none => none
        | some (v, r2) =>
          match decodePairsWith dec n r2 with
          | none => none
          | some (ps, r3) => some ((key, v) :: ps, r3)

/-- Modelled from the spec: the ValueDecoder grammar (spec §4.2) — the
program delegates decoding to the external library
`phpserialize.Unmarshal`, whose source is not part of this repository.
One production per marker: `N;` (Null), `b:0;`/`b:1;` (Boolean),
`i:<int>;` (Integer), `d:<float literal>;` (Float, literal kept raw),
`s:<len>:"<len bytes>";` (Text, declared length must equal the payload
byte count), `a:<count>:{exactly count pairs}` (Associative).  Any other
shape fails; `fuel` is the bounded recursion depth of the spec's
`DepthExceeded` hardening requirement, one unit per nesting level. -/
def decodeValueF : Nat → List Char → Option (PValue × List Char)
  | 0, _ => none
  | fuel + 1, chars =>
    match chars with
    | 'N' :: ';' :: rest => some (.vNull, rest)
    | 'b' :: ':' :: '0' :: ';' :: rest => some (.vBool false, rest)
    | 'b' :: ':' :: '1' :: ';' :: rest => some (.vBool true, rest)
    | 'i' :: ':' :: rest =>
      (match takeIntLit rest with
       | some (n, ';' :: rest2) => some (.vInt n, rest2)
       | _ => none)
    | 'd' :: ':' :: rest =>
      (let lit := rest.takeWhile (fun c => c ≠ ';')
       if lit.isEmpty ∨ ¬ lit.all isFloatChar then none
       else
         match rest.dropWhile (fun c => c ≠ ';') with
         | ';' :: rest2 => some (.vFloat lit, rest2)
         | _ => none)
    | 's' :: ':' :: rest =>
      (match takeNatLit rest with
       | some (n, ':' :: '"' :: rest2) =>
         let payload := rest2.take n
         if payload.length = n then
           (match rest2.drop n with
            | '"' :: ';' :: rest3 => some (.vText payload, rest3)
            | _ => none)
         else none
       | _ => none)
    | 'a' :: ':' :: rest =>
      (match takeNatLit rest with
       | some (n, ':' :: '\x7b' :: rest2) =>
         (match decodePairsWith (fun c => decodeValueF fuel c) n rest2 with
          | some (entries, '\x7d' :: rest3) => some (.vMap entries, rest3)
          | _ => none)
       | _ => none)
    | _ => none

/-- Modelled from the spec: `phpserialize.Unmarshal(fileData, &parsedData)`
with `parsedData : map[interface{}]interface{}` — decode the whole buffer
as a single value (spec §4.2: "produce exactly one SerializedValue or
fail") and require the top level to be an associative container (the
unmarshal target is a map).  The nesting depth of a parseable value never
exceeds the buffer length, so a depth budget of `length + 1` never
misfires. -/
def decodeTop (s : List Char) : Option (List (PKey × PValue)) :=
  match decodeValueF (s.length + 1) s with
  | some (.vMap m, []) => some m
  | _ => none

/-- Go error text of the extractor's error returns (src/main.go lines 35,
55, 59, 63); the `%v` detail that `strconv.Atoi` appends to the
InvalidLength message is elided. -/
def errMsg : ExtractError → List Char
  | .MalformedContainer => "invalid serialized string".data
  | .InvalidLength => "invalid string length".data
  | .MalformedKey => "expected \x27\"\x27 after length".data
  | .TruncatedKey => "string length exceeds content".data

/-- Header line of the php-parse section of `main`. -/
def phpHeader : List Char := "PHP Serialized Data (parsed):\n".data

/-- The line `main` writes when the extractor fails (non-fatally). -/
def extractErrLine (e : ExtractError) : List Char :=
  "Error extracting key order: ".data ++ errMsg e ++ ['\n']

/-- The line `main` writes when the value decode fails (the `%v` error
detail is elided). -/
def parseFailLine : List Char :=
  "Failed to parse as PHP serialized data".data ++ ['\n']

/-- The `--php` branch of `main` (src/main.go lines 266–291): write the
header; run the extractor — an error is reported in the output and the key
order degrades to empty, a panic crashes the program (`none`); attempt the
value decode regardless; on decode failure report it, otherwise print the
map with the extracted keys (converted to string keys); append a final
newline.  Returns the text appended to the output buffer, or `none` when
the program crashes instead. -/
def runPhpParse (fileData : List Char) : Option (List Char) :=
  match extractTopLevelKeys fileData with
  | .goPanic => none
  | .fuelOut => none
  | res =>
    let errPart : List Char :=
      match res with
      | .err e => extractErrLine e
      | _ => []
    let topKeys : List (List Char) :=
      match res with
      | .ok ks => ks
      | _ => []
    let body : List Char :=
      match decodeTop fileData with
      | none => parseFailLine
      | some m => printRun m (topKeys.map PKey.kText)
    some (phpHeader ++ errPart ++ body ++ ['\n'])

-- Sanity examples (concrete scenario of spec §8).
example :
    extractTopLevelKeys "a:2:\x7bs:3:\"foo\";s:3:\"bar\";s:3:\"baz\";i:42;\x7d".data
      = .ok ["foo".data, "bar".data, "baz".data] := by decide

example : extractTopLevelKeys [] = .err .MalformedContainer := by decide

example : extractTopLevelKeys "a:1:\x7bs:-1:\"x\";\x7d".data = .goPanic := by decide

example : extractTopLevelKeys "s:5:\"ab\"".data = .err .MalformedContainer := by decide

example :
    printMapToBufferF 1 [(PKey.kText "foo".data, PValue.vText "bar".data)] 0
      [PKey.kText "foo".data] = some "- foo: bar\n".data := by decide

example :
    printMapToBufferF 2
      [(PKey.kText "m".data, PValue.vMap [(PKey.kInt 1, PValue.vInt 2)])] 0
      [PKey.kText "m".data] = some "- m:\n  - 1: 2\n".data := by decide

example :
    decodeTop "a:2:\x7bs:3:\"foo\";s:3:\"bar\";s:3:\"baz\";i:42;\x7d".data
      = some [(PKey.kText "foo".data, PValue.vText "bar".data),
              (PKey.kText "baz".data, PValue.vInt 42)] := by rfl

example : decodeTop [] = none := by rfl

example : decodeTop "s:5:\"ab\"".data = none := by rfl

-- ## Helper lemmas about the scan

theorem getC_eq_getElem (l : List Char) (i : Nat) (h : i < l.length) :
    getC l i = l[i] := by
  simp [getC, List.getD_eq_getElem?_getD, List.getElem?_eq_getElem h]

theorem drop_cons_of_lt (l : List Char) (i : Nat) (h : i < l.length) :
    l.drop i = getC l i :: l.drop (i + 1) := by
  rw [getC_eq_getElem l i h]
  exact List.drop_eq_getElem_cons h

theorem countMarkers_tail_le (l : List Char) : countMarkers l.tail ≤ countMarkers l := by
  cases l with
  | nil => simp
  | cons c rest => simp [countMarkers]

theorem countMarkers_drop_le (l : List Char) :
    ∀ k, countMarkers (l.drop k) ≤ countMarkers l := by
  intro k
  induction k with
  | zero => simp
  | succ k ih =>
    calc countMarkers (l.drop (k + 1)) = countMarkers (l.drop k).tail := by
          rw [List.tail_drop]
      _ ≤ countMarkers (l.drop k) := countMarkers_tail_le _
      _ ≤ countMarkers l := ih

theorem countMarkers_drop_mono (l : List Char) {a b : Nat} (h : a ≤ b) :
    countMarkers (l.drop b) ≤ countMarkers (l.drop a) := by
  have hb : l.drop b = (l.drop a).drop (b - a) := by
    rw [List.drop_drop]
    congr 1
    omega
  rw [hb]
  exact countMarkers_drop_le _ _

theorem countMarkers_marker (l : List Char) (i : Nat) (h1 : i + 1 < l.length)
    (hs : getC l i = 's') (hc : getC l (i + 1) = ':') :
    countMarkers (l.drop i) = 1 + countMarkers (l.drop (i + 1)) := by
  have hi : i < l.length := by omega
  rw [drop_cons_of_lt l i hi, hs, drop_cons_of_lt l (i + 1) h1, hc]
  simp [countMarkers]

theorem findColon_ge (content : List Char) (j : Nat) : j ≤ findColon content j :=
  Nat.le_add_right _ _

/-- The scan loop never reports the container error: `MalformedContainer`
is issued only by the brace check before the loop starts. -/
theorem scanKeysF_ne_malformedContainer :
    ∀ (fuel : Nat) (content : List Char) (i : Nat) (acc : List (List Char)),
      scanKeysF fuel content i acc ≠ .err .MalformedContainer := by
  intro fuel
  induction fuel with
  | zero => intro content i acc h; simp [scanKeysF] at h
  | succ fuel ih =>
    intro content i acc h
    simp only [scanKeysF] at h
    by_cases hi : i < content.length
    · rw [if_pos hi] at h
      by_cases hm : getC content i = 's' ∧ i + 1 < content.length ∧ getC content (i + 1) = ':'
      · rw [if_pos hm] at h
        by_cases hbreak : content.length ≤ findColon content (i + 2)
        · rw [if_pos hbreak] at h
          simp at h
        · rw [if_neg hbreak] at h
          split at h
          · simp at h
          · rename_i n hA
            by_cases hq : content.length ≤ findColon content (i + 2) + 1 ∨
                getC content (findColon content (i + 2) + 1) ≠ '"'
            · rw [if_pos hq] at h
              simp at h
            · rw [if_neg hq] at h
              by_cases htr : (content.length : Int) <
                  wrap64 ((findColon content (i + 2) : Int) + 2 + n)
              · rw [if_pos htr] at h
                simp at h
              · rw [if_neg htr] at h
                by_cases hpan : wrap64 ((findColon content (i + 2) : Int) + 2 + n) <
                    (findColon content (i + 2) : Int) + 2
                · rw [if_pos hpan] at h
                  simp at h
                · rw [if_neg hpan] at h
                  exact ih _ _ _ h
      · rw [if_neg hm] at h
        exact ih _ _ _ h
    · rw [if_neg hi] at h
      simp at h

/-- Fidelity of the step budget: the Go loop moves `i` strictly forward
each iteration, so the budget `extractTopLevelKeys` supplies
(`content.length + 1` at `i = 0`) can never run out. -/
theorem scanKeysF_no_fuelOut :
    ∀ (fuel : Nat) (content : List Char) (i : Nat) (acc : List (List Char)),
      content.length - i < fuel →
      scanKeysF fuel content i acc ≠ .fuelOut := by
  intro fuel
  induction fuel with
  | zero => intro content i acc hfuel h; omega
  | succ fuel ih =>
    intro content i acc hfuel h
    simp only [scanKeysF] at h
    by_cases hi : i < content.length
    · rw [if_pos hi] at h
      by_cases hm : getC content i = 's' ∧ i + 1 < content.length ∧ getC content (i + 1) = ':'
      · rw [if_pos hm] at h
        by_cases hbreak : content.length ≤ findColon content (i + 2)
        · rw [if_pos hbreak] at h
          simp at h
        · rw [if_neg hbreak] at h
          split at h
          · simp at h
          · rename_i n hA
            by_cases hq : content.length ≤ findColon content (i + 2) + 1 ∨
                getC content (findColon content (i + 2) + 1) ≠ '"'
            · rw [if_pos hq] at h
              simp at h
            · rw [if_neg hq] at h
              by_cases htr : (content.length : Int) <
                  wrap64 ((findColon content (i + 2) : Int) + 2 + n)
              · rw [if_pos htr] at h
                simp at h
              · rw [if_neg htr] at h
                by_cases hpan : wrap64 ((findColon content (i + 2) : Int) + 2 + n) <
                    (findColon content (i + 2) : Int) + 2
                · rw [if_pos hpan] at h
                  simp at h
                · rw [if_neg hpan] at h
                  have hj : i + 2 ≤ findColon content (i + 2) := findColon_ge _ _
                  have ht : (findColon content (i + 2) : Int) + 2 ≤
                      wrap64 ((findColon content (i + 2) : Int) + 2 + n) := not_lt.mp hpan
                  have htn : findColon content (i + 2) + 2 ≤
                      (wrap64 ((findColon content (i + 2) : Int) + 2 + n)).toNat := by omega
                  exact ih content _ _ (by omega) h
      · rw [if_neg hm] at h
        exact ih content (i + 1) acc (by omega) h
    · rw [if_neg hi] at h
      simp at h

/-- The scan appends at most one key per occurrence of the marker `s:` in
the yet-unscanned suffix: every appended key is matched at a marker
position, and the scan position moves strictly past it. -/
theorem scanKeysF_ok_length :
    ∀ (fuel : Nat) (content : List Char) (i : Nat) (acc ks : List (List Char)),
      scanKeysF fuel content i acc = .ok ks →
      ks.length ≤ acc.length + countMarkers (content.drop i) := by
  intro fuel
  induction fuel with
  | zero => intro content i acc ks h; simp [scanKeysF] at h
  | succ fuel ih =>
    intro content i acc ks h
    simp only [scanKeysF] at h
    by_cases hi : i < content.length
    · rw [if_pos hi] at h
      by_cases hm : getC content i = 's' ∧ i + 1 < content.length ∧ getC content (i + 1) = ':'
      · rw [if_pos hm] at h
        obtain ⟨hs, h1, hc⟩ := hm
        have hcm : countMarkers (content.drop i) =
            1 + countMarkers (content.drop (i + 1)) :=
          countMarkers_marker content i h1 hs hc
        by_cases hbreak : content.length ≤ findColon content (i + 2)
        · rw [if_pos hbreak] at h
          simp only [ExtractOutcome.ok.injEq] at h
          have hlen : ks.length = acc.length := by
            rw [← h]
            simp
          omega
        · rw [if_neg hbreak] at h
          split at h
          · simp at h
          · rename_i n hA
            by_cases hq : content.length ≤ findColon content (i + 2) + 1 ∨
                getC content (findColon content (i + 2) + 1) ≠ '"'
            · rw [if_pos hq] at h
              simp at h
            · rw [if_neg hq] at h
              by_cases htr : (content.length : Int) <
                  wrap64 ((findColon content (i + 2) : Int) + 2 + n)
              · rw [if_pos htr] at h
                simp at h
              · rw [if_neg htr] at h
                by_cases hpan : wrap64 ((findColon content (i + 2) : Int) + 2 + n) <
                    (findColon content (i + 2) : Int) + 2
                · rw [if_pos hpan] at h
                  simp at h
                · rw [if_neg hpan] at h
                  have hrec := ih content _ _ _ h
                  simp only [List.length_cons] at hrec
                  have hj : i + 2 ≤ findColon content (i + 2) := findColon_ge _ _
                  have ht : (findColon content (i + 2) : Int) + 2 ≤
                      wrap64 ((findColon content (i + 2) : Int) + 2 + n) := not_lt.mp hpan
                  have htn : i + 1 ≤
                      (wrap64 ((findColon content (i + 2) : Int) + 2 + n)).toNat + 2 := by
                    omega
                  have hmono :
                      countMarkers (content.drop
                        ((wrap64 ((findColon content (i + 2) : Int) + 2 + n)).toNat + 2)) ≤
                      countMarkers (content.drop (i + 1)) :=
                    countMarkers_drop_mono content htn
                  omega
      · rw [if_neg hm] at h
        have hrec := ih content (i + 1) acc ks h
        have hmono : countMarkers (content.drop (i + 1)) ≤
            countMarkers (content.drop i) :=
          countMarkers_drop_mono content (Nat.le_succ i)
        omega
    · rw [if_neg hi] at h
      simp only [ExtractOutcome.ok.injEq] at h
      have hlen : ks.length = acc.length := by
        rw [← h]
        simp
      omega

-- ## Helper lemmas about the printer

theorem sizeEntries_pos (data : List (PKey × PValue)) : 1 ≤ sizeEntries data := by
  cases data with
  | nil => simp [sizeEntries]
  | cons p rest =>
    obtain ⟨k, v⟩ := p
    simp only [sizeEntries]
    omega

theorem lookupKey_size :
    ∀ (data : List (PKey × PValue)) (k : PKey) (v : PValue),
      lookupKey data k = some v → sizePV v < sizeEntries data := by
  intro data
  induction data with
  | nil => intro k v h; simp [lookupKey] at h
  | cons p rest ih =>
    intro k v h
    obtain ⟨k', v'⟩ := p
    simp only [lookupKey] at h
    by_cases hk : k' = k
    · rw [if_pos hk] at h
      obtain rfl : v' = v := Option.some.inj h
      simp only [sizeEntries]
      omega
    · rw [if_neg hk] at h
      have := ih k v h
      simp only [sizeEntries]
      omega

theorem resolveValue_size (data : List (PKey × PValue)) (k : PKey) (v : PValue)
    (h : resolveValue data k = some v) : sizePV v < sizeEntries data := by
  unfold resolveValue at h
  split at h
  · rename_i w hw
    obtain rfl : w = v := Option.some.inj h
    exact lookupKey_size _ _ _ hw
  · exact lookupKey_size _ _ _ h

/-- A stack budget of `sizeEntries data` always suffices for the printer:
each nested map is strictly smaller than the map containing it. -/
theorem printMapToBufferF_isSome :
    ∀ (fuel : Nat) (data : List (PKey × PValue)), sizeEntries data ≤ fuel →
      ∀ (indent : Nat) (keys : List PKey),
        (printMapToBufferF fuel data indent keys).isSome := by
  intro fuel
  induction fuel with
  | zero =>
    intro data hd
    have := sizeEntries_pos data
    omega
  | succ fuel ih =>
    intro data hd indent keys
    simp only [printMapToBufferF]
    induction keys with
    | nil => simp [printEntries]
    | cons k rest ihk =>
      simp only [printEntries]
      cases hr : resolveValue data k with
      | none =>
        simp only [hr]
        exact ihk
      | some v =>
        cases v with
        | vMap m =>
          simp only [hr]
          have hm : sizePV (.vMap m) < sizeEntries data := resolveValue_size _ _ _ hr
          have hm2 : sizeEntries m ≤ fuel := by
            simp only [sizePV] at hm
            omega
          obtain ⟨inner, hinner⟩ :=
            Option.isSome_iff_exists.mp (ih m hm2 (indent + 1) (m.map Prod.fst))
          obtain ⟨restOut, hro⟩ := Option.isSome_iff_exists.mp ihk
          simp only [hinner, hro]
          simp
        | vNull =>
          simp only [hr]
          obtain ⟨restOut, hro⟩ := Option.isSome_iff_exists.mp ihk
          simp only [hro]
          simp
        | vBool b =>
          simp only [hr]
          obtain ⟨restOut, hro⟩ := Option.isSome_iff_exists.mp ihk
          simp only [hro]
          simp
        | vInt n =>
          simp only [hr]
          obtain ⟨restOut, hro⟩ := Option.isSome_iff_exists.mp ihk
          simp only [hro]
          simp
        | vFloat lit =>
          simp only [hr]
          obtain ⟨restOut, hro⟩ := Option.isSome_iff_exists.mp ihk
          simp only [hro]
          simp
        | vText s =>
          simp only [hr]
          obtain ⟨restOut, hro⟩ := Option.isSome_iff_exists.mp ihk
          simp only [hro]
          simp

-- ## Claim theorems

/-- C1 (counterexample): on the spec's concrete buffer
`a:2:{s:3:"foo";s:3:"bar";s:3:"baz";i:42;}` the extractor does NOT return
the claimed key sequence `["foo","baz"]` — the flat scan also matches the
`s:` marker of the top-level string value `"bar"`. -/
theorem c1_counterexample :
    extractTopLevelKeys "a:2:\x7bs:3:\"foo\";s:3:\"bar\";s:3:\"baz\";i:42;\x7d".data
      ≠ .ok ["foo".data, "baz".data] := by decide

/-- C1 (amended): on the buffer `a:2:{s:3:"foo";s:3:"bar";s:3:"baz";i:42;}`
the extractor returns exactly the key sequence `["foo","bar","baz"]`, in
that order: the flat scan collects the top-level string value `"bar"` as
well as the two declared keys. -/
theorem c1_amended_keys :
    extractTopLevelKeys "a:2:\x7bs:3:\"foo\";s:3:\"bar\";s:3:\"baz\";i:42;\x7d".data
      = .ok ["foo".data, "bar".data, "baz".data] := by decide

/-- C3 (code bug): on a buffer whose `s:` marker declares the length `-1`
(`a:1:{s:-1:"x";}`), `strconv.Atoi` succeeds with a negative value, the
`j+2+n > len(content)` guard passes, and the slice
`content[j+2 : j+2+n]` has its high bound below its low bound — the
program panics (slice bounds out of range) instead of returning the
`InvalidLength` error the claim (and spec) require. -/
theorem c3_negative_length_panics :
    extractTopLevelKeys "a:1:\x7bs:-1:\"x\";\x7d".data = .goPanic := by decide

/-- C5 (code bug): on a buffer declaring the length `9223372036854775807`
(max `int64`; fewer than that many bytes remain, so the claim requires a
`TruncatedKey` error), the Go addition `j+2+n` overflows to a negative
`int`, the `j+2+n > len(content)` guard passes, and the slice panics —
the program crashes instead of reporting `TruncatedKey`. -/
theorem c5_overflow_length_panics :
    extractTopLevelKeys "a:1:\x7bs:9223372036854775807:\"x\";\x7d".data = .goPanic := by
  decide

/-- C4: the extractor returns `MalformedContainer` exactly when the buffer
has no `{`, has no `}`, or the last `}` does not come strictly after the
first `{`; in particular the empty buffer yields this error.  (The Go
function returns `nil` keys together with this error, i.e. an empty
order.) -/
theorem c4_malformed_container_iff :
    (∀ s : List Char,
      extractTopLevelKeys s = .err .MalformedContainer ↔
        (firstIdx s '\x7b' = none ∨ lastIdx s '\x7d' = none ∨
          ∃ st en, firstIdx s '\x7b' = some st ∧ lastIdx s '\x7d' = some en ∧ en ≤ st))
    ∧ extractTopLevelKeys [] = .err .MalformedContainer := by
  constructor
  · intro s
    cases h1 : firstIdx s '\x7b' with
    | none => simp [extractTopLevelKeys, h1]
    | some st =>
      cases h2 : lastIdx s '\x7d' with
      | none => simp [extractTopLevelKeys, h1, h2]
      | some en =>
        by_cases hle : en ≤ st
        · constructor
          · intro _
            exact Or.inr (Or.inr ⟨st, en, rfl, rfl, hle⟩)
          · intro _
            simp [extractTopLevelKeys, h1, h2, hle]
        · constructor
          · intro hx
            have : extractTopLevelKeys s =
                scanKeysF ((goSlice s (st + 1) en).length + 1) (goSlice s (st + 1) en) 0 [] := by
              simp [extractTopLevelKeys, h1, h2, hle]
            rw [this] at hx
            exact absurd hx (scanKeysF_ne_malformedContainer _ _ _ _)
          · intro hrhs
            rcases hrhs with h | h | ⟨st', en', hst, hen, hle'⟩
            · exact Option.noConfusion h
            · exact Option.noConfusion h
            · obtain rfl := Option.some.inj hst
              obtain rfl := Option.some.inj hen
              exact absurd hle' hle
  · decide

/-- C4 (witness): the empty buffer falls in the MalformedContainer class. -/
theorem c4_witness : extractTopLevelKeys [] = .err .MalformedContainer :=
  c4_malformed_container_iff.2

theorem firstColonFrom_eq_length (l : List Char) (h : ∀ c ∈ l, c ≠ ':') :
    firstColonFrom l = l.length := by
  induction l with
  | nil => simp [firstColonFrom]
  | cons c rest ih =>
    simp only [firstColonFrom]
    rw [if_neg (h c (by simp))]
    rw [ih (fun d hd => h d (by simp [hd]))]
    simp

/-- C9 (counterexample): the buffer `a:1:{s:x;s:}` has, in its content
region `s:x;s:`, an `s:` marker (at position 4) after which no `:` occurs,
yet the extractor does not return the keys collected so far with no
error — it fails with `InvalidLength` at the earlier marker before ever
reaching the dangling one. -/
theorem c9_counterexample :
    (getC (contentOf "a:1:\x7bs:x;s:\x7d".data) 4 = 's' ∧
      getC (contentOf "a:1:\x7bs:x;s:\x7d".data) 5 = ':' ∧
      4 + 1 < (contentOf "a:1:\x7bs:x;s:\x7d".data).length ∧
      (∀ c ∈ (contentOf "a:1:\x7bs:x;s:\x7d".data).drop 6, c ≠ ':')) ∧
    extractTopLevelKeys "a:1:\x7bs:x;s:\x7d".data = .err .InvalidLength := by
  refine ⟨⟨by decide, by decide, by decide, by decide⟩, by decide⟩

/-- C9 (amended): when the scan reaches an `s:` marker after which no `:`
occurs before the end of the content (and has not failed at an earlier
marker), it stops at that marker and returns the keys collected so far
with no error. -/
theorem c9_amended_dangling_marker_break :
    ∀ (fuel : Nat) (content : List Char) (i : Nat) (acc : List (List Char)),
      i + 1 < content.length → getC content i = 's' → getC content (i + 1) = ':' →
      (∀ c ∈ content.drop (i + 2), c ≠ ':') →
      scanKeysF (fuel + 1) content i acc = .ok acc.reverse := by
  intro fuel content i acc h1 hs hc hnone
  have hj : findColon content (i + 2) = content.length := by
    rw [findColon, firstColonFrom_eq_length _ hnone, List.length_drop]
    omega
  simp only [scanKeysF]
  rw [if_pos (by omega : i < content.length)]
  rw [if_pos ⟨hs, h1, hc⟩]
  rw [if_pos (le_of_eq hj.symm)]

/-- C9 (witness): on the two-character content `s:` the scan stops at the
dangling marker and returns no keys, with no error. -/
theorem c9_witness : scanKeysF 1 ['s', ':'] 0 [] = .ok [] :=
  c9_amended_dangling_marker_break 0 ['s', ':'] 0 []
    (by decide) (by decide) (by decide) (by decide)

/-- C2 (counterexample): on the spec's own concrete buffer both the
extractor and the decoder succeed, but the key order has 3 entries while
the decoded top-level associative map has only 2 — the claimed `≤` fails. -/
theorem c2_counterexample :
    extractTopLevelKeys "a:2:\x7bs:3:\"foo\";s:3:\"bar\";s:3:\"baz\";i:42;\x7d".data
        = .ok ["foo".data, "bar".data, "baz".data] ∧
    decodeTop "a:2:\x7bs:3:\"foo\";s:3:\"bar\";s:3:\"baz\";i:42;\x7d".data
        = some [(PKey.kText "foo".data, PValue.vText "bar".data),
                (PKey.kText "baz".data, PValue.vInt 42)] ∧
    ¬ (["foo".data, "bar".data, "baz".data].length ≤
        [(PKey.kText "foo".data, PValue.vText "bar".data),
         (PKey.kText "baz".data, PValue.vInt 42)].length) :=
  ⟨by decide, by rfl, by decide⟩

/-- C2 (amended): for every input buffer on which both the extractor and
the value decoder succeed, the length of the returned key order is at most
the number of `s:` marker occurrences in the content between the braces
(it can exceed the number of entries in the decoded top-level map, since
the flat scan also collects top-level string values). -/
theorem c2_amended_marker_bound :
    ∀ (s : List Char) (ks : List (List Char)) (m : List (PKey × PValue)),
      extractTopLevelKeys s = .ok ks → decodeTop s = some m →
      ks.length ≤ countMarkers (contentOf s) := by
  intro s ks m hex _hdec
  unfold extractTopLevelKeys at hex
  split at hex
  · rename_i st en h1 h2
    by_cases hle : en ≤ st
    · rw [if_pos hle] at hex
      simp at hex
    · rw [if_neg hle] at hex
      have hb := scanKeysF_ok_length _ _ _ _ _ hex
      simp only [List.length_nil, List.drop_zero, Nat.zero_add] at hb
      have hco : contentOf s = goSlice s (st + 1) en := by
        simp [contentOf, h1, h2, hle]
      rw [hco]
      exact hb
  · simp at hex

/-- C6: the printer resolves each listed key first by exact key match,
then by the key's string-formatted form; a key that resolves neither way
is skipped silently — it produces no output line and no error, and the
remaining keys are rendered exactly as if the key were absent from the
list. -/
theorem c6_lookup_fallback_and_skip :
    ∀ (fuel : Nat) (data : List (PKey × PValue)) (indent : Nat) (k : PKey)
      (rest : List PKey),
      (lookupKey data k = none → lookupKey data (.kText (formatKey k)) = none →
        printMapToBufferF fuel data indent (k :: rest)
          = printMapToBufferF fuel data indent rest)
      ∧ (∀ v, lookupKey data k = some v → resolveValue data k = some v)
      ∧ (lookupKey data k = none →
          resolveValue data k = lookupKey data (.kText (formatKey k))) := by
  intro fuel data indent k rest
  refine ⟨?_, ?_, ?_⟩
  · intro h1 h2
    have hr : resolveValue data k = none := by
      simp [resolveValue, h1, h2]
    cases fuel with
    | zero => rfl
    | succ fuel =>
      simp only [printMapToBufferF, printEntries, hr]
  · intro v hv
    simp [resolveValue, hv]
  · intro h1
    simp [resolveValue, h1]

/-- C6 (witness): the key `zz` resolves neither exactly nor via its string
form in the map `{a ↦ 1}`; it is skipped and the remaining key `a` still
renders. -/
theorem c6_witness :
    printMapToBufferF 1 [(PKey.kText "a".data, PValue.vInt 1)] 0
        [PKey.kText "zz".data, PKey.kText "a".data]
      = printMapToBufferF 1 [(PKey.kText "a".data, PValue.vInt 1)] 0
          [PKey.kText "a".data] :=
  (c6_lookup_fallback_and_skip 1 _ 0 _ _).1 (by rfl) (by rfl)

/-- C7 (counterexample): a scalar entry is NOT rendered as the line
`key: value` — the code writes a dash and a space before the key: on the
map `{foo ↦ "bar"}` the output line is `- foo: bar`, not `foo: bar`. -/
theorem c7_counterexample :
    printMapToBufferF 1 [(PKey.kText "foo".data, PValue.vText "bar".data)] 0
        [PKey.kText "foo".data] = some "- foo: bar\n".data ∧
    "- foo: bar\n".data ≠ "foo: bar\n".data :=
  ⟨by decide, by decide⟩

/-- C7 (amended): every scalar entry is rendered as the line
`- key: value` (the indentation prefix, a dash and a space, the key, a
colon and space, then the value), every associative entry as `- key:`
followed by the recursively rendered block one indent level deeper, and
the indentation prefix grows by exactly one level (two spaces) per unit of
nesting depth. -/
theorem c7_amended_format :
    ∀ (fuel : Nat) (data : List (PKey × PValue)) (indent : Nat) (k : PKey)
      (rest : List PKey),
      (∀ v, resolveValue data k = some v → (∀ m, v ≠ .vMap m) →
        printMapToBufferF (fuel + 1) data indent (k :: rest)
          = (printMapToBufferF (fuel + 1) data indent rest).map
              (fun restOut => indentChars indent ++ ('-' :: ' ' :: formatKey k) ++
                (':' :: ' ' :: scalarText v) ++ ('\n' :: restOut)))
      ∧ (∀ m inner restOut,
          resolveValue data k = some (.vMap m) →
          printMapToBufferF fuel m (indent + 1) (m.map Prod.fst) = some inner →
          printMapToBufferF (fuel + 1) data indent rest = some restOut →
          printMapToBufferF (fuel + 1) data indent (k :: rest)
            = some (indentChars indent ++ ('-' :: ' ' :: formatKey k) ++
                (':' :: '\n' :: inner) ++ restOut))
      ∧ (∀ n, indentChars (n + 1) = ' ' :: ' ' :: indentChars n) := by
  intro fuel data indent k rest
  refine ⟨?_, ?_, ?_⟩
  · intro v hv hscal
    cases v with
    | vMap m => exact absurd rfl (hscal m)
    | vNull =>
      simp only [printMapToBufferF, printEntries, hv]
      cases hro : printEntries (fun m i ks => printMapToBufferF fuel m i ks) data indent rest
        <;> simp [hro]
    | vBool b =>
      simp only [printMapToBufferF, printEntries, hv]
      cases hro : printEntries (fun m i ks => printMapToBufferF fuel m i ks) data indent rest
        <;> simp [hro]
    | vInt n =>
      simp only [printMapToBufferF, printEntries, hv]
      cases hro : printEntries (fun m i ks => printMapToBufferF fuel m i ks) data indent rest
        <;> simp [hro]
    | vFloat lit =>
      simp only [printMapToBufferF, printEntries, hv]
      cases hro : printEntries (fun m i ks => printMapToBufferF fuel m i ks) data indent rest
        <;> simp [hro]
    | vText s =>
      simp only [printMapToBufferF, printEntries, hv]
      cases hro : printEntries (fun m i ks => printMapToBufferF fuel m i ks) data indent rest
        <;> simp [hro]
  · intro m inner restOut hv hi hro
    simp only [printMapToBufferF, printEntries, hv] at *
    simp only [hi, hro]
  · intro n
    unfold indentChars
    rw [Nat.mul_succ]
    rfl

/-- C7 (witness): the amended format at concrete inputs — a scalar entry
of `{foo ↦ "bar"}` and an associative entry of `{m ↦ {1 ↦ 2}}`. -/
theorem c7_witness :
    (printMapToBufferF 1 [(PKey.kText "foo".data, PValue.vText "bar".data)] 0
        [PKey.kText "foo".data]
      = (printMapToBufferF 1 [(PKey.kText "foo".data, PValue.vText "bar".data)] 0 []).map
          (fun restOut => indentChars 0 ++
            ('-' :: ' ' :: formatKey (PKey.kText "foo".data)) ++
            (':' :: ' ' :: scalarText (PValue.vText "bar".data)) ++ ('\n' :: restOut))) ∧
    printMapToBufferF 2
        [(PKey.kText "m".data, PValue.vMap [(PKey.kInt 1, PValue.vInt 2)])] 0
        [PKey.kText "m".data]
      = some (indentChars 0 ++ ('-' :: ' ' :: formatKey (PKey.kText "m".data)) ++
          (':' :: '\n' :: "  - 1: 2\n".data) ++ []) :=
  ⟨(c7_amended_format 0 _ 0 _ _).1 _ (by rfl) (fun m h => PValue.noConfusion h),
   (c7_amended_format 1 _ 0 _ _).2.1 [(PKey.kInt 1, PValue.vInt 2)] "  - 1: 2\n".data []
     (by rfl) (by rfl) (by rfl)⟩

/-- C8: whenever the extractor returns an error, the caller still
proceeds: the error is reported in the output, the key order degrades to
empty, the value decode is still attempted, and the report is still
rendered — the program does not crash and the extractor error never aborts
rendering. -/
theorem c8_extract_error_nonfatal :
    ∀ (s : List Char) (e : ExtractError),
      extractTopLevelKeys s = .err e →
      runPhpParse s =
        some (phpHeader ++ extractErrLine e ++
          (match decodeTop s with
           | none => parseFailLine
           | some m => printRun m []) ++ ['\n']) := by
  intro s e h
  simp [runPhpParse, h]

/-- C8 (witness): on the empty buffer the extractor fails with
`MalformedContainer`, the decode is attempted (and fails), and the report
is still rendered. -/
theorem c8_witness :
    runPhpParse [] =
      some (phpHeader ++ extractErrLine .MalformedContainer ++ parseFailLine ++ ['\n']) :=
  (c8_extract_error_nonfatal [] .MalformedContainer (by decide)).trans (by rfl)

/-- C10: for every finite decoded map (the inductive value tree has no
cycles by construction) and every finite key list, the printer terminates:
a stack budget of `sizeEntries data` levels is always enough, because each
recursive call descends into a strictly smaller nested map. -/
theorem c10_printer_terminates :
    ∀ (data : List (PKey × PValue)) (indent : Nat) (keys : List PKey),
      (printMapToBufferF (sizeEntries data) data indent keys).isSome :=
  fun data indent keys =>
    printMapToBufferF_isSome (sizeEntries data) data (le_refl _) indent keys

/-- C2 (witness): the amended bound at the spec's concrete buffer — both
components succeed and the 3 extracted keys are bounded by the 3 `s:`
markers in the content region. -/
theorem c2_amended_witness :
    extractTopLevelKeys "a:2:\x7bs:3:\"foo\";s:3:\"bar\";s:3:\"baz\";i:42;\x7d".data
        = .ok ["foo".data, "bar".data, "baz".data] ∧
    ["foo".data, "bar".data, "baz".data].length ≤
      countMarkers (contentOf "a:2:\x7bs:3:\"foo\";s:3:\"bar\";s:3:\"baz\";i:42;\x7d".data) :=
  ⟨by decide,
   c2_amended_marker_bound _ _
     [(PKey.kText "foo".data, PValue.vText "bar".data),
      (PKey.kText "baz".data, PValue.vInt 42)]
     (by decide) (by rfl)⟩
